import Mathlib

/-!
Shallow embedding of the frame-visualization pipeline of the
`video_processor` repository (the `visualizer` package), together with
proofs of the specification's claims about it.

Conventions of the embedding:
* numpy `uint8` values are modelled as `ℕ` with an explicit cast
  (truncation toward zero, then wrap modulo 256);
* Python floats are modelled as `ℚ` (all constants appearing in the
  claims are exactly representable; the quantities compared are far
  from the claim-relevant decision boundaries);
* `cv2` drawing calls are modelled as emitted drawing commands: the
  rasterization itself is an external collaborator, so a frame's
  composited state is the blended pixel array plus the ordered list of
  drawing commands applied to it.  Text-extent measurement
  (`cv2.getTextSize`) is external, so text positions are omitted from
  the commands; text content, colors, geometry of lines/circles and
  the scale-bar endpoints are kept exactly;
* Python exceptions / `exit(1)` are modelled with `Except String`;
* `pandas` data frames are modelled as lists of rows; a missing
  `track_id` column entry is `Option.none`, and reading it raises.
-/

/-- Python `int(...)` applied to a float: truncation toward zero
(`Int.tdiv` on the reduced numerator/denominator is exactly that). -/
def pyInt (q : ℚ) : ℤ :=
  q.num.tdiv q.den

/-- Model of `np.uint8(...)` applied to a float value: truncate toward zero, wrap
modulo 256 (all claim-relevant inputs lie in `[0, 255]`, where this is
exact). -/
def uint8 (q : ℚ) : ℕ :=
  (pyInt q).toNat % 256

/-- An RGB triple; used both for pixels of a converted frame and for
configured colors (the source uses numpy value triples for both). -/
structure RGB where
  r : ℕ
  g : ℕ
  b : ℕ
  deriving DecidableEq

/-- A raw frame as loaded from the TIFF stack: grayscale (2-D, here
row-major flattened) or already RGB (`len(frame.shape) == 2` test in
`FrameVisualizer._convert_to_rgb`).  Pixels are listed row-major; the
spatial arrangement is irrelevant to every elementwise operation
modelled here. -/
inductive RawFrame where
  | gray (pixels : List ℕ)
  | rgb (pixels : List RGB)
  deriving DecidableEq

/-- Embeds `FrameVisualizer._convert_to_rgb`: `np.stack([frame] * 3, axis=-1)`
duplicates each grayscale value into three channels; an RGB frame is
returned unchanged. -/
def convert_to_rgb : RawFrame → List RGB
  | .gray ps => ps.map fun v => ⟨v, v, v⟩
  | .rgb ps => ps

/-- The `mask_colors` array of `FrameVisualizer._add_mask_to_frame` at
one pixel: starts at zero, and each `(class_id, color)` entry of the
dict overwrites the positions where `mask == int(class_id)`; the store
into the `uint8` array wraps each channel modulo 256. -/
def mask_color_at (mask_colors : List (ℕ × RGB)) (class_id : ℕ) : RGB :=
  mask_colors.foldl
    (fun acc kv =>
      if kv.1 = class_id then ⟨kv.2.r % 256, kv.2.g % 256, kv.2.b % 256⟩ else acc)
    ⟨0, 0, 0⟩

/-- One channel of
`np.uint8(frame * (1 - alpha * (mask_colors > 0)) + mask_colors * alpha)`:
note the indicator `mask_colors > 0` is elementwise per channel. -/
def blend_channel (alpha : ℚ) (f c : ℕ) : ℕ :=
  uint8 ((f : ℚ) * (1 - alpha * (if 0 < c then 1 else 0)) + (c : ℚ) * alpha)

/-- Embeds `FrameVisualizer._add_mask_to_frame` at one pixel. -/
def add_mask_to_pixel (mask_colors : List (ℕ × RGB)) (alpha : ℚ) (f : RGB)
    (class_id : ℕ) : RGB :=
  let c := mask_color_at mask_colors class_id
  ⟨blend_channel alpha f.r c.r, blend_channel alpha f.g c.g, blend_channel alpha f.b c.b⟩

/-- Embeds `FrameVisualizer._add_mask_to_frame` on a whole frame (elementwise
over pixel/mask-class pairs). -/
def add_mask_to_frame (mask_colors : List (ℕ × RGB)) (alpha : ℚ)
    (frame : List RGB) (mask : List ℕ) : List RGB :=
  List.zipWith (add_mask_to_pixel mask_colors alpha) frame mask

/-- A `cv2` drawing call emitted onto a frame.  Text positions are
computed via `cv2.getTextSize` (external) and omitted; everything else
is kept. -/
inductive DrawCmd where
  | line (p q : ℤ × ℤ) (color : RGB) (thickness : ℕ)
  | circle (center : ℤ × ℤ) (radius : ℕ) (color : RGB)
  | text (s : String) (color : RGB)
  deriving DecidableEq

/-- One entry of `CellTrackingDrawer.trajectories`: `max_frame`,
frame-ordered `points` (frame, x, y), display `color`. -/
structure TrajInfo where
  max_frame : ℕ
  points : List (ℕ × ℤ × ℤ)
  color : RGB
  deriving DecidableEq

/-- Maximum of the frame indices of a point list (pandas `.max()` on the
`frame_y` column of one track's rows). -/
def max_frame_of (pts : List (ℕ × ℤ × ℤ)) : ℕ :=
  (pts.map fun p => p.1).foldr max 0

/-- The list comprehension in `CellTrackingDrawer.draw_cell_tracking`:
`[(x, y) for frame, x, y in info['points'] if frame <= current_frame_idx]`. -/
def points_to_draw (info : TrajInfo) (cur : ℕ) : List (ℤ × ℤ) :=
  (info.points.filter fun p => p.1 ≤ cur).map fun p => (p.2.1, p.2.2)

/-- Embeds `CellTrackingDrawer._draw_trajectory`: when more than one point,
draw `cv2.line` between consecutive points (thickness 2). -/
def draw_trajectory (pts : List (ℤ × ℤ)) (color : RGB) : List DrawCmd :=
  if 1 < pts.length then
    (pts.zip pts.tail).map fun pq => DrawCmd.line pq.1 pq.2 color 2
  else []

/-- The trajectory half of `CellTrackingDrawer.draw_cell_tracking` for
one identity: skipped entirely when `info['max_frame'] < current_frame_idx`. -/
def trajectory_cmds (info : TrajInfo) (cur : ℕ) : List DrawCmd :=
  if info.max_frame < cur then []
  else draw_trajectory (points_to_draw info cur) info.color

/-- One row of a cell-label CSV; `track_id` is `none` when the row
carries no `track_id` value. -/
structure LabelRow where
  frame_y : ℕ
  x : ℤ
  y : ℤ
  track_id : Option ℤ
  deriving DecidableEq

/-- One entry of `CellTrackingDrawer.cell_labels`. -/
structure LabelSet where
  rows : List LabelRow
  color : RGB
  deriving DecidableEq

/-- Reading `row['track_id']` in `CellTrackingDrawer._draw_labels`: raises when
the row has no such value. -/
def get_track_id (row : LabelRow) : Except String ℤ :=
  match row.track_id with
  | some t => Except.ok t
  | none => Except.error ("KeyError: track_id")

/-- The body of the row loop of `CellTrackingDrawer._draw_labels`:
`track_id = row['track_id']` is executed unconditionally, before the
circle is drawn and before the `if self.track_id_color` test. -/
def draw_label_row (track_id_color : Option RGB) (color : RGB)
    (row : LabelRow) : Except String (List DrawCmd) := do
  let tid ← get_track_id row
  let c := DrawCmd.circle (row.x, row.y) 3 color
  match track_id_color with
  | some tc => pure [c, DrawCmd.text (toString tid) tc]
  | none => pure [c]

/-- Embeds `CellTrackingDrawer._draw_labels` over the rows selected for the
current frame. -/
def draw_labels (track_id_color : Option RGB) (color : RGB) :
    List LabelRow → Except String (List DrawCmd)
  | [] => Except.ok []
  | row :: rest => do
    let cs ← draw_label_row track_id_color color row
    let rest' ← draw_labels track_id_color color rest
    pure (cs ++ rest')

/-- One cell-label set's contribution at the current frame:
`info['data'][info['data']['frame_y'] == current_frame_idx]` then
`_draw_labels`. -/
def label_set_cmds (track_id_color : Option RGB) (cur : ℕ)
    (s : LabelSet) : Except String (List DrawCmd) :=
  draw_labels track_id_color s.color (s.rows.filter fun r => r.frame_y = cur)

/-- Embeds `CellTrackingDrawer.draw_cell_tracking`: all trajectory polylines,
then all cell-label markers/ids, in iteration order. -/
def draw_cell_tracking (trajs : List TrajInfo) (label_sets : List LabelSet)
    (track_id_color : Option RGB) (cur : ℕ) : Except String (List DrawCmd) := do
  let t := (trajs.map fun info => trajectory_cmds info cur).flatten
  let ls ← label_sets.mapM (label_set_cmds track_id_color cur)
  pure (t ++ ls.flatten)

/-- Embeds `MetaDataDrawer._draw_time`: when `time_between_frames` is set,
render `f"{int(current_frame_idx * time_between_frames)} s"`. -/
def draw_time (time_between_frames : Option ℚ) (color : RGB) (cur : ℕ) :
    List DrawCmd :=
  match time_between_frames with
  | none => []
  | some t =>
    let v := pyInt ((cur : ℚ) * t)
    [DrawCmd.text (toString v ++ " s") color]

/-- The scale-bar endpoint computation of `MetaDataDrawer._draw_scale`:
`scale_length_pixels = 5 / pixel_size`;
`x_start = width - int(scale_length_pixels) - 60`; `x_end = width - 60`;
if `x_end - x_start < width / 10` then `x_end = x_start + int(width / 10)`. -/
def scale_bar_ends (width : ℕ) (pixel_size : ℚ) : ℤ × ℤ :=
  let scale_length_pixels : ℚ := 5 / pixel_size
  let x_start : ℤ := (width : ℤ) - pyInt scale_length_pixels - 60
  let x_end : ℤ := (width : ℤ) - 60
  if ((x_end - x_start : ℤ) : ℚ) < (width : ℚ) / 10 then
    (x_start, x_start + pyInt ((width : ℚ) / 10))
  else (x_start, x_end)

/-- Embeds `MetaDataDrawer._draw_scale`: when `pixel_size` is set, draw the bar
(at `y = 20`, thickness 2) and the constant label `f"{5} um"`. -/
def draw_scale (width : ℕ) (pixel_size : Option ℚ) (color : RGB) :
    List DrawCmd :=
  match pixel_size with
  | none => []
  | some p =>
    let ends := scale_bar_ends width p
    [DrawCmd.line (ends.1, 20) (ends.2, 20) color 2,
     DrawCmd.text ("5 um") color]

/-- The drawn scale bar's length in pixels. -/
def drawn_bar_length (width : ℕ) (pixel_size : ℚ) : ℤ :=
  (scale_bar_ends width pixel_size).2 - (scale_bar_ends width pixel_size).1

/-- Embeds `FrameVisualizer.__init__`: `self.alpha = alpha if alpha else 0.3` —
Python falsiness, so both `None` and `0.0` yield the default. -/
def init_alpha : Option ℚ → ℚ
  | none => 3 / 10
  | some a => if a = 0 then 3 / 10 else a

/-- Embeds `FrameVisualizer.__init__`:
`self.output_frequency = output_frequency if output_frequency else 100`. -/
def init_output_frequency : Option ℕ → ℕ
  | none => 100
  | some f => if f = 0 then 100 else f

/-- The configuration state of a `FrameVisualizer` after `__init__`
(with `alpha` and `output_frequency` already resolved). -/
structure VisParams where
  mask_colors : List (ℕ × RGB)
  alpha : ℚ
  track_id_color : Option RGB
  trajs : List TrajInfo
  label_sets : List LabelSet
  time_between_frames : Option ℚ
  pixel_size : Option ℚ
  meta_color : RGB

/-- Indexing `array[i]` with bounds check (numpy raises `IndexError`). -/
def getFrame? {α : Type} (l : List α) (i : ℕ) : Except String α :=
  match l.get? i with
  | some x => Except.ok x
  | none => Except.error ("IndexError")

/-- The per-frame body of `FrameVisualizer.process_batch`: convert to
RGB, blend the mask, then collect the tracking and metadata drawing
commands applied to the frame.  `width` is the constant frame width
(`frame.shape[1]`), needed by the scale bar. -/
def process_frame (P : VisParams) (width : ℕ) (raw : RawFrame)
    (mask : List ℕ) (i : ℕ) : Except String (List RGB × List DrawCmd) := do
  let frame_rgb := convert_to_rgb raw
  let processed := add_mask_to_frame P.mask_colors P.alpha frame_rgb mask
  let track ← draw_cell_tracking P.trajs P.label_sets P.track_id_color i
  let meta := draw_time P.time_between_frames P.meta_color i ++
    draw_scale width P.pixel_size P.meta_color
  pure (processed, track ++ meta)

/-- The loop of `FrameVisualizer.process_batch` over a list of frame
indices; returns the composited frames and the progress log lines.
`i % 0` in Python raises `ZeroDivisionError`. -/
def process_frames (P : VisParams) (orig : List RawFrame)
    (mask : List (List ℕ)) (width freq : ℕ) :
    List ℕ → Except String (List (List RGB × List DrawCmd) × List String)
  | [] => Except.ok ([], [])
  | i :: rest => do
    let raw ← getFrame? orig i
    let m ← getFrame? mask i
    let log ←
      if freq = 0 then Except.error ("ZeroDivisionError")
      else Except.ok (if i % freq = 0 then ["Processing frame " ++ toString i] else [])
    let cf ← process_frame P width raw m i
    let rec' ← process_frames P orig mask width freq rest
    pure (cf :: rec'.1, log ++ rec'.2)

/-- Embeds `FrameVisualizer.process_batch` over
`range(start_frame, end_frame)`. -/
def process_batch (P : VisParams) (orig : List RawFrame)
    (mask : List (List ℕ)) (width freq start_frame end_frame : ℕ) :
    Except String (List (List RGB × List DrawCmd) × List String) :=
  process_frames P orig mask width freq
    (List.range' start_frame (end_frame - start_frame))

/-- The chunk loop of `DataVisualizer.process_data`:
`for start_frame in range(0, num_frames, chunk_size)` with
`end_frame = min(start_frame + chunk_size, num_frames)`. -/
def chunks_from (chunk_size start num_frames : ℕ) : List (ℕ × ℕ) :=
  if _h : start < num_frames ∧ 0 < chunk_size then
    (start, min (start + chunk_size) num_frames) ::
      chunks_from chunk_size (min (start + chunk_size) num_frames) num_frames
  else []
termination_by num_frames - start
decreasing_by
  omega

/-- The full sequence of chunk ranges generated by
`DataVisualizer.process_data`. -/
def chunk_ranges (num_frames chunk_size : ℕ) : List (ℕ × ℕ) :=
  chunks_from chunk_size 0 num_frames

/-- The shape check of `DataVisualizer._load_data`:
`if self.original.shape != self.segmentation_mask.shape: raise ValueError(...)`.
Shapes of the grayscale stacks are `(num_frames, height, width)` triples. -/
def load_data (orig_shape mask_shape : ℕ × ℕ × ℕ) : Except String Unit :=
  if orig_shape ≠ mask_shape then
    Except.error ("The video and mask dimensions do not match")
  else Except.ok ()

/-- Embeds `DataVisualizer.process_data`: iterate the chunk ranges, process
each batch, hand each batch with its bounds to the output sink.  The
returned list models the sequence of `save_frames` calls. -/
def process_data (P : VisParams) (orig : List RawFrame)
    (mask : List (List ℕ)) (width freq chunk_size : ℕ) :
    Except String (List (ℕ × ℕ × List (List RGB × List DrawCmd))) :=
  (chunk_ranges orig.length chunk_size).mapM fun se => do
    let out ← process_batch P orig mask width freq se.1 se.2
    pure (se.1, se.2, out.1)

/-- A full run of `DataVisualizer`: `__init__` performs `_load_data`
(the shape check) before any processing; only then may `process_data`
run. -/
def run_visualizer (orig_shape mask_shape : ℕ × ℕ × ℕ) (P : VisParams)
    (orig : List RawFrame) (mask : List (List ℕ)) (width freq chunk_size : ℕ) :
    Except String (List (ℕ × ℕ × List (List RGB × List DrawCmd))) := do
  let _ ← load_data orig_shape mask_shape
  process_data P orig mask width freq chunk_size

/-- Holds when the range list is a chain of contiguous half-open ranges running from `a` up to
`b`: ascending, non-overlapping, no gaps, union `[a, b)`. -/
def covers : List (ℕ × ℕ) → ℕ → ℕ → Prop
  | [], a, b => a = b
  | se :: rest, a, b => se.1 = a ∧ se.1 < se.2 ∧ covers rest se.2 b

/-! ## Helper lemmas -/

theorem covers_le : ∀ (l : List (ℕ × ℕ)) (a b : ℕ), covers l a b → a ≤ b := by
  intro l
  induction l with
  | nil => intro a b h; exact Nat.le_of_eq h
  | cons p t ih =>
    intro a b h
    obtain ⟨h1, h2, h3⟩ := h
    have := ih p.2 b h3
    omega

theorem covers_mem_iff : ∀ (l : List (ℕ × ℕ)) (a b : ℕ), covers l a b →
    ∀ m : ℕ, (a ≤ m ∧ m < b) ↔ ∃ p ∈ l, p.1 ≤ m ∧ m < p.2 := by
  intro l
  induction l with
  | nil =>
    intro a b h m
    have : a = b := h
    subst this
    simp only [List.not_mem_nil, false_and, exists_false, iff_false]
    omega
  | cons p t ih =>
    intro a b h m
    obtain ⟨h1, h2, h3⟩ := h
    have hb := covers_le t p.2 b h3
    have hiff := ih p.2 b h3 m
    simp only [List.mem_cons]
    constructor
    · rintro ⟨ham, hmb⟩
      by_cases hc : m < p.2
      · exact ⟨p, Or.inl rfl, by omega, hc⟩
      · obtain ⟨q, hq, hq2⟩ := hiff.mp ⟨by omega, hmb⟩
        exact ⟨q, Or.inr hq, hq2⟩
    · rintro ⟨q, hq | hq, hle, hlt⟩
      · subst hq; omega
      · have := hiff.mpr ⟨q, hq, hle, hlt⟩; omega

theorem chunks_from_covers (cs : ℕ) (hcs : 0 < cs) :
    ∀ (fuel start n : ℕ), n - start ≤ fuel → start ≤ n →
      covers (chunks_from cs start n) start n := by
  intro fuel
  induction fuel with
  | zero =>
    intro start n hf hle
    rw [chunks_from, dif_neg (by omega)]
    show start = n
    omega
  | succ fuel ih =>
    intro start n hf hle
    rw [chunks_from]
    by_cases hlt : start < n
    · rw [dif_pos ⟨hlt, hcs⟩]
      exact ⟨rfl, by omega, ih (min (start + cs) n) n (by omega) (by omega)⟩
    · rw [dif_neg (by omega)]
      show start = n
      omega

theorem chunks_from_size (cs : ℕ) :
    ∀ (fuel start n : ℕ), n - start ≤ fuel →
      ∀ p ∈ chunks_from cs start n, p.2 - p.1 ≤ cs := by
  intro fuel
  induction fuel with
  | zero =>
    intro start n hf p hp
    rw [chunks_from, dif_neg (by omega)] at hp
    simp at hp
  | succ fuel ih =>
    intro start n hf p hp
    rw [chunks_from] at hp
    by_cases h : start < n ∧ 0 < cs
    · rw [dif_pos h] at hp
      rcases List.mem_cons.mp hp with h1 | h1
      · subst h1; simp; omega
      · exact ih (min (start + cs) n) n (by omega) p h1
    · rw [dif_neg h] at hp
      simp at hp

/-! ## Claim theorems -/

/-- C1: for every `num_frames ≥ 0` and `chunk_size ≥ 1`, the chunk
ranges generated by `DataVisualizer.process_data` exactly partition
`[0, num_frames)`: they form an ascending contiguous chain from `0` to
`num_frames` (hence non-overlapping, union the full range), each has
length at most `chunk_size`, every frame index below `num_frames` lies
in exactly the emitted ranges, and `num_frames = 0` emits no chunks. -/
theorem chunk_ranges_partition (num_frames chunk_size : ℕ) (hcs : 1 ≤ chunk_size) :
    covers (chunk_ranges num_frames chunk_size) 0 num_frames ∧
    (∀ p ∈ chunk_ranges num_frames chunk_size, p.2 - p.1 ≤ chunk_size) ∧
    (∀ m : ℕ, m < num_frames ↔
      ∃ p ∈ chunk_ranges num_frames chunk_size, p.1 ≤ m ∧ m < p.2) ∧
    (num_frames = 0 → chunk_ranges num_frames chunk_size = []) := by
  have hcov : covers (chunk_ranges num_frames chunk_size) 0 num_frames :=
    chunks_from_covers chunk_size hcs num_frames 0 num_frames (by omega) (by omega)
  refine ⟨hcov, ?_, ?_, ?_⟩
  · exact chunks_from_size chunk_size num_frames 0 num_frames (by omega)
  · intro m
    have h := covers_mem_iff (chunk_ranges num_frames chunk_size) 0 num_frames hcov m
    exact ⟨fun hm => h.mp ⟨Nat.zero_le m, hm⟩, fun he => (h.mpr he).2⟩
  · intro h0
    subst h0
    rw [chunk_ranges, chunks_from, dif_neg (by omega)]

/-- Witness for C1 at `num_frames = 7`, `chunk_size = 3`. -/
theorem chunk_ranges_partition_witness :
    1 ≤ 3 ∧ covers (chunk_ranges 7 3) 0 7 :=
  ⟨by decide, (chunk_ranges_partition 7 3 (by decide)).1⟩

theorem pyInt_natCast (n : ℕ) : pyInt (n : ℚ) = n := by
  simp [pyInt, Rat.num_natCast, Rat.den_natCast, Int.tdiv_one]

theorem uint8_natCast (n : ℕ) (h : n < 256) : uint8 (n : ℚ) = n := by
  unfold uint8
  rw [pyInt_natCast]
  simp [Int.toNat_natCast]
  omega

theorem blend_channel_pos (alpha : ℚ) (f c : ℕ) (hc : 0 < c) :
    blend_channel alpha f c = uint8 ((f : ℚ) * (1 - alpha) + (c : ℚ) * alpha) := by
  unfold blend_channel
  rw [if_pos hc]
  congr 1
  ring

theorem blend_channel_zero (alpha : ℚ) (f : ℕ) :
    blend_channel alpha f 0 = uint8 (f : ℚ) := by
  unfold blend_channel
  rw [if_neg (lt_irrefl 0)]
  congr 1
  ring

theorem blend_channel_cases (alpha : ℚ) (f c : ℕ) (hf : f < 256) :
    blend_channel alpha f c =
      if 0 < c then uint8 ((f : ℚ) * (1 - alpha) + (c : ℚ) * alpha) else f := by
  by_cases hc : 0 < c
  · rw [if_pos hc, blend_channel_pos alpha f c hc]
  · rw [if_neg hc]
    have hc0 : c = 0 := by omega
    subst hc0
    rw [blend_channel_zero, uint8_natCast f hf]

theorem mask_color_at_unmapped :
    ∀ (cmap : List (ℕ × RGB)) (m : ℕ), (∀ kv ∈ cmap, kv.1 ≠ m) →
      mask_color_at cmap m = ⟨0, 0, 0⟩ := by
  have aux : ∀ (l : List (ℕ × RGB)) (m : ℕ) (acc : RGB), (∀ kv ∈ l, kv.1 ≠ m) →
      l.foldl (fun acc kv =>
        if kv.1 = m then ⟨kv.2.r % 256, kv.2.g % 256, kv.2.b % 256⟩ else acc) acc = acc := by
    intro l
    induction l with
    | nil => intro m acc _; rfl
    | cons kv t ih =>
      intro m acc h
      have hkv : kv.1 ≠ m := h kv (List.mem_cons_self kv t)
      simp only [List.foldl_cons, if_neg hkv]
      exact ih m acc fun q hq => h q (List.mem_cons_of_mem kv hq)
  intro cmap m h
  exact aux cmap m ⟨0, 0, 0⟩ h

theorem add_mask_unmapped_pixel (cmap : List (ℕ × RGB)) (alpha : ℚ) (f : RGB) (m : ℕ)
    (h : ∀ kv ∈ cmap, kv.1 ≠ m)
    (hr : f.r < 256) (hg : f.g < 256) (hb : f.b < 256) :
    add_mask_to_pixel cmap alpha f m = f := by
  unfold add_mask_to_pixel
  rw [mask_color_at_unmapped cmap m h]
  cases f with
  | mk r g b =>
    simp only
    rw [blend_channel_zero, blend_channel_zero, blend_channel_zero,
      uint8_natCast r hr, uint8_natCast g hg, uint8_natCast b hb]

theorem zipWith_mask_id (cmap : List (ℕ × RGB)) (alpha : ℚ) :
    ∀ (fs : List RGB) (ms : List ℕ), fs.length = ms.length →
      (∀ p ∈ fs, p.r < 256 ∧ p.g < 256 ∧ p.b < 256) →
      (∀ m ∈ ms, ∀ kv ∈ cmap, kv.1 ≠ m) →
      List.zipWith (add_mask_to_pixel cmap alpha) fs ms = fs := by
  intro fs
  induction fs with
  | nil => intro ms _ _ _; rfl
  | cons p t ih =>
    intro ms hlen hb hm
    cases ms with
    | nil => simp at hlen
    | cons m mt =>
      simp only [List.zipWith_cons_cons]
      have hbp := hb p (List.mem_cons_self p t)
      have hmp := hm m (List.mem_cons_self m mt)
      rw [add_mask_unmapped_pixel cmap alpha p m hmp hbp.1 hbp.2.1 hbp.2.2]
      congr 1
      exact ih mt (by simpa using hlen)
        (fun q hq => hb q (List.mem_cons_of_mem p hq))
        (fun x hx => hm x (List.mem_cons_of_mem m hx))

/-- C2 counterexample: with `mask_colors = {1 : (255, 0, 0)}`, `α = 1`,
frame pixel `(10, 10, 10)` and mask class `1`, the produced pixel is not
the claimed per-channel blend `frame*(1−α) + color*α` (which at `α = 1`
is exactly the mapped color `(255, 0, 0)`): the green and blue channels
stay at the original frame value `10` because the per-channel indicator
`mask_colors > 0` is `0` there. -/
theorem mask_blend_counterexample :
    add_mask_to_pixel [(1, ⟨255, 0, 0⟩)] 1 ⟨10, 10, 10⟩ 1 ≠
      ⟨uint8 ((10 : ℚ) * (1 - 1) + (255 : ℚ) * 1),
       uint8 ((10 : ℚ) * (1 - 1) + (0 : ℚ) * 1),
       uint8 ((10 : ℚ) * (1 - 1) + (0 : ℚ) * 1)⟩ := by
  with_unfolding_all decide

/-- C2 (amended): for a pixel whose mask class resolves to color `c`,
each channel whose color component is positive becomes
`uint8(frame*(1−α) + c*α)`, while each channel whose color component is
zero keeps the original frame value (in particular, with `α = 1` the
pixel becomes the mapped color only on its positive channels, and with
`α = 0` it is unchanged). -/
theorem mask_blend_per_channel (cmap : List (ℕ × RGB)) (alpha : ℚ) (f : RGB) (m : ℕ)
    (h0 : 0 ≤ alpha) (h1 : alpha ≤ 1)
    (hr : f.r < 256) (hg : f.g < 256) (hb : f.b < 256) :
    (add_mask_to_pixel cmap alpha f m).r =
      (if 0 < (mask_color_at cmap m).r then
        uint8 ((f.r : ℚ) * (1 - alpha) + ((mask_color_at cmap m).r : ℚ) * alpha)
      else f.r) ∧
    (add_mask_to_pixel cmap alpha f m).g =
      (if 0 < (mask_color_at cmap m).g then
        uint8 ((f.g : ℚ) * (1 - alpha) + ((mask_color_at cmap m).g : ℚ) * alpha)
      else f.g) ∧
    (add_mask_to_pixel cmap alpha f m).b =
      (if 0 < (mask_color_at cmap m).b then
        uint8 ((f.b : ℚ) * (1 - alpha) + ((mask_color_at cmap m).b : ℚ) * alpha)
      else f.b) := by
  unfold add_mask_to_pixel
  exact ⟨blend_channel_cases alpha f.r _ hr, blend_channel_cases alpha f.g _ hg,
    blend_channel_cases alpha f.b _ hb⟩

/-- Witness for the amended C2 at `α = 1`, color `(255, 0, 0)`, frame
pixel `(10, 10, 10)`, mask class `1` (red channel). -/
theorem mask_blend_per_channel_witness :
    ((0 : ℚ) ≤ 1 ∧ (1 : ℚ) ≤ 1 ∧ 10 < 256) ∧
    (add_mask_to_pixel [(1, ⟨255, 0, 0⟩)] 1 ⟨10, 10, 10⟩ 1).r =
      (if 0 < (mask_color_at [(1, ⟨255, 0, 0⟩)] 1).r then
        uint8 (((⟨10, 10, 10⟩ : RGB).r : ℚ) * (1 - 1) +
          ((mask_color_at [(1, ⟨255, 0, 0⟩)] 1).r : ℚ) * 1)
      else (⟨10, 10, 10⟩ : RGB).r) :=
  ⟨⟨zero_le_one, le_refl 1, by decide⟩,
    (mask_blend_per_channel [(1, ⟨255, 0, 0⟩)] 1 ⟨10, 10, 10⟩ 1
      zero_le_one (le_refl 1) (by decide) (by decide) (by decide)).1⟩

/-- C3: when every pixel's mask class is absent from the color map, the
blended frame equals the RGB-normalized input frame exactly, at every
pixel and channel. -/
theorem mask_blend_unmapped_identity (cmap : List (ℕ × RGB)) (alpha : ℚ)
    (raw : RawFrame) (mask : List ℕ)
    (hlen : (convert_to_rgb raw).length = mask.length)
    (hbound : ∀ p ∈ convert_to_rgb raw, p.r < 256 ∧ p.g < 256 ∧ p.b < 256)
    (hunmapped : ∀ m ∈ mask, ∀ kv ∈ cmap, kv.1 ≠ m) :
    add_mask_to_frame cmap alpha (convert_to_rgb raw) mask = convert_to_rgb raw := by
  unfold add_mask_to_frame
  exact zipWith_mask_id cmap alpha (convert_to_rgb raw) mask hlen hbound hunmapped

/-- Witness for C3: a grayscale 2-pixel frame, mask classes all
unmapped, `α = 1/2`. -/
theorem mask_blend_unmapped_identity_witness :
    (convert_to_rgb (.gray [5, 7])).length = [3, 4].length ∧
    add_mask_to_frame [(1, ⟨255, 0, 0⟩)] (1 / 2) (convert_to_rgb (.gray [5, 7])) [3, 4] =
      convert_to_rgb (.gray [5, 7]) :=
  ⟨by decide, mask_blend_unmapped_identity [(1, ⟨255, 0, 0⟩)] (1 / 2) (.gray [5, 7]) [3, 4]
    (by decide) (by decide) (by decide)⟩

theorem filter_le_eq_take (cur : ℕ) :
    ∀ (l : List (ℕ × ℤ × ℤ)), l.Pairwise (fun a b => a.1 ≤ b.1) →
      ∃ k, l.filter (fun p => p.1 ≤ cur) = l.take k := by
  intro l
  induction l with
  | nil => exact fun _ => ⟨0, rfl⟩
  | cons p t ih =>
    intro hp
    rcases List.pairwise_cons.mp hp with ⟨hhead, htail⟩
    by_cases hc : p.1 ≤ cur
    · obtain ⟨k, hk⟩ := ih htail
      refine ⟨k + 1, ?_⟩
      rw [List.filter_cons_of_pos (by simpa using hc), List.take_succ_cons, hk]
    · refine ⟨0, ?_⟩
      rw [List.take_zero, List.filter_cons_of_neg (by simpa using hc)]
      rw [List.filter_eq_nil_iff]
      intro q hq
      have := hhead q hq
      simp only [decide_eq_true_eq]
      omega

/-- C4: for an identity whose `max_frame` is the maximum frame index of
its frame-ascending point list, `draw_cell_tracking` draws nothing for
it when `current_frame > max_frame`; otherwise the points it uses are
exactly those with `frame ≤ current_frame`, and they form an initial
segment (a `take`) of the stored frame-ordered point list. -/
theorem visible_path_spec (info : TrajInfo) (cur : ℕ)
    (hmax : info.max_frame = max_frame_of info.points)
    (hsorted : info.points.Pairwise fun a b => a.1 ≤ b.1) :
    (info.max_frame < cur → trajectory_cmds info cur = []) ∧
    (cur ≤ info.max_frame →
      ∃ k, info.points.filter (fun p => p.1 ≤ cur) = info.points.take k ∧
        points_to_draw info cur = ((info.points.take k).map fun p => (p.2.1, p.2.2))) := by
  constructor
  · intro h
    unfold trajectory_cmds
    rw [if_pos h]
  · intro _
    obtain ⟨k, hk⟩ := filter_le_eq_take cur info.points hsorted
    refine ⟨k, hk, ?_⟩
    unfold points_to_draw
    rw [hk]

/-- Witness for C4: points at frames `{2, 5, 9}`, `current_frame = 5`
(the visible points are those at frames `{2, 5}`, an initial segment). -/
theorem visible_path_spec_witness :
    (⟨9, [(2, 0, 0), (5, 1, 1), (9, 2, 2)], ⟨255, 0, 0⟩⟩ : TrajInfo).max_frame =
      max_frame_of (⟨9, [(2, 0, 0), (5, 1, 1), (9, 2, 2)], ⟨255, 0, 0⟩⟩ : TrajInfo).points ∧
    (∃ k, (⟨9, [(2, 0, 0), (5, 1, 1), (9, 2, 2)], ⟨255, 0, 0⟩⟩ : TrajInfo).points.filter
        (fun p => p.1 ≤ 5) =
        (⟨9, [(2, 0, 0), (5, 1, 1), (9, 2, 2)], ⟨255, 0, 0⟩⟩ : TrajInfo).points.take k ∧
      points_to_draw ⟨9, [(2, 0, 0), (5, 1, 1), (9, 2, 2)], ⟨255, 0, 0⟩⟩ 5 =
        (((⟨9, [(2, 0, 0), (5, 1, 1), (9, 2, 2)], ⟨255, 0, 0⟩⟩ : TrajInfo).points.take k).map
          fun p => (p.2.1, p.2.2))) :=
  ⟨by decide,
    (visible_path_spec ⟨9, [(2, 0, 0), (5, 1, 1), (9, 2, 2)], ⟨255, 0, 0⟩⟩ 5
      (by decide) (by decide)).2 (by decide)⟩

/-- C5: if the loaded frame stack and mask stack disagree in frame
count or in either spatial dimension, the run fails with the load-time
shape error and produces no output at all (no chunk is processed). -/
theorem shape_mismatch_fatal (P : VisParams) (orig_shape mask_shape : ℕ × ℕ × ℕ)
    (orig : List RawFrame) (mask : List (List ℕ)) (width freq chunk_size : ℕ)
    (h : orig_shape.1 ≠ mask_shape.1 ∨ orig_shape.2.1 ≠ mask_shape.2.1 ∨
      orig_shape.2.2 ≠ mask_shape.2.2) :
    run_visualizer orig_shape mask_shape P orig mask width freq chunk_size =
      Except.error ("The video and mask dimensions do not match") := by
  have hne : orig_shape ≠ mask_shape := by
    intro he
    rcases h with h | h | h <;> (rw [he] at h; exact h rfl)
  have hload : load_data orig_shape mask_shape =
      Except.error ("The video and mask dimensions do not match") := by
    unfold load_data
    rw [if_pos hne]
  unfold run_visualizer
  rw [hload]
  rfl

/-- Witness for C5: stacks of 10 and 9 frames, both 64×64. -/
theorem shape_mismatch_fatal_witness :
    (((10, 64, 64) : ℕ × ℕ × ℕ).1 ≠ ((9, 64, 64) : ℕ × ℕ × ℕ).1) ∧
    run_visualizer (10, 64, 64) (9, 64, 64)
        ⟨[], 3 / 10, none, [], [], none, none, ⟨255, 255, 255⟩⟩ [] [] 64 100 4 =
      Except.error ("The video and mask dimensions do not match") :=
  ⟨by decide,
    shape_mismatch_fatal ⟨[], 3 / 10, none, [], [], none, none, ⟨255, 255, 255⟩⟩
      (10, 64, 64) (9, 64, 64) [] [] 64 100 4 (Or.inl (by decide))⟩

/-- C6 counterexample: at frame width `100` and `pixel_size = 0.3`, the
floor condition does not fire (`5/0.3 = 50/3 ≥ 10 = 10%` of width), yet
the drawn bar length is `16 = int(5/0.3)`, not `5/0.3` — the claimed
exact equality with `fixed_physical_length / pixel_size` fails. -/
theorem scale_bar_length_counterexample :
    drawn_bar_length 100 (3 / 10) = 16 ∧
    ¬ ((5 : ℚ) / (3 / 10) < (100 : ℚ) / 10) ∧
    ((16 : ℚ) ≠ 5 / (3 / 10)) := by
  refine ⟨?_, ?_, ?_⟩ <;> with_unfolding_all decide

/-- C6 (amended): the drawn bar length is the integer truncation
`int(fixed_physical_length / pixel_size)`, except that whenever that
truncated value is below 10% of the frame width the drawn length is
exactly `int(width / 10)`; in the concrete case `pixel_size = 0.22`,
width `512`, the drawn length is `51` (within the claimed `51` or `52`);
and the text label always states the nominal physical length `5 um`. -/
theorem scale_bar_floor (width : ℕ) (pixel_size : ℚ) (color : RGB)
    (hps : 0 < pixel_size) :
    (drawn_bar_length width pixel_size =
      if ((pyInt (5 / pixel_size) : ℤ) : ℚ) < (width : ℚ) / 10 then
        pyInt ((width : ℚ) / 10)
      else pyInt (5 / pixel_size)) ∧
    DrawCmd.text ("5 um") color ∈ draw_scale width (some pixel_size) color ∧
    drawn_bar_length 512 (11 / 50) = 51 := by
  refine ⟨?_, ?_, by with_unfolding_all decide⟩
  · unfold drawn_bar_length scale_bar_ends
    have harith : ((width : ℤ) - 60) - ((width : ℤ) - pyInt (5 / pixel_size) - 60) =
        pyInt (5 / pixel_size) := by ring
    simp only [harith]
    by_cases hc : ((pyInt (5 / pixel_size) : ℤ) : ℚ) < (width : ℚ) / 10
    · rw [if_pos hc, if_pos hc]
      ring
    · rw [if_neg hc, if_neg hc]
      ring
  · unfold draw_scale
    exact List.mem_cons_of_mem _ (List.mem_singleton_self _)

/-- Witness for the amended C6 at `pixel_size = 0.22`. -/
theorem scale_bar_floor_witness :
    (0 : ℚ) < 11 / 50 ∧ drawn_bar_length 512 (11 / 50) = 51 :=
  ⟨by norm_num, (scale_bar_floor 512 (11 / 50) ⟨255, 255, 255⟩ (by norm_num)).2.2⟩

/-- C7 counterexample: a trajectory identity with exactly one visible
point (its point's frame equals the current frame, `max_frame` not yet
passed) draws nothing at all — in particular no marker is drawn for it,
contrary to the claim that it "draws only its marker". -/
theorem single_point_no_marker_counterexample :
    points_to_draw ⟨3, [(3, 5, 5)], ⟨255, 0, 0⟩⟩ 3 = [(5, 5)] ∧
    draw_cell_tracking [⟨3, [(3, 5, 5)], ⟨255, 0, 0⟩⟩] [] none 3 = Except.ok [] :=
  ⟨by decide, rfl⟩

/-- C7 (amended): a connected polyline — consecutive segments of the
visible path's points, in frame order — is drawn for an identity if and
only if the identity is not past its `max_frame` and its visible path
has at least 2 points; an identity with at most one visible point draws
nothing (no line and no marker: trajectory identities never draw
markers, which come only from cell-label sets). -/
theorem polyline_iff_two_points (info : TrajInfo) (cur : ℕ) :
    (trajectory_cmds info cur ≠ [] ↔
      ¬ info.max_frame < cur ∧ 2 ≤ (points_to_draw info cur).length) ∧
    ((points_to_draw info cur).length ≤ 1 → trajectory_cmds info cur = []) ∧
    (¬ info.max_frame < cur → 2 ≤ (points_to_draw info cur).length →
      trajectory_cmds info cur =
        ((points_to_draw info cur).zip (points_to_draw info cur).tail).map
          fun pq => DrawCmd.line pq.1 pq.2 info.color 2) := by
  unfold trajectory_cmds draw_trajectory
  by_cases hm : info.max_frame < cur
  · rw [if_pos hm]
    exact ⟨by simp [hm], fun _ => rfl, fun h _ => absurd hm h⟩
  · rw [if_neg hm]
    by_cases hl : 1 < (points_to_draw info cur).length
    · rw [if_pos hl]
      refine ⟨⟨fun _ => ⟨hm, hl⟩, fun _ hnil => ?_⟩, fun hle => absurd hl (by omega),
        fun _ _ => rfl⟩
      have hlen := congrArg List.length hnil
      simp only [List.length_map, List.length_zip, List.length_tail,
        List.length_nil] at hlen
      omega
    · rw [if_neg hl]
      exact ⟨⟨fun hc => absurd rfl hc, fun ⟨_, h2⟩ => absurd h2 (by omega)⟩,
        fun _ => rfl, fun _ h2 => absurd h2 (by omega)⟩

/-- Witness for the amended C7: three points visible at frame 5 → the
two consecutive segments are drawn. -/
theorem polyline_iff_two_points_witness :
    ¬ (⟨9, [(2, 0, 0), (5, 1, 1), (9, 2, 2)], ⟨0, 0, 255⟩⟩ : TrajInfo).max_frame < 5 ∧
    trajectory_cmds ⟨9, [(2, 0, 0), (5, 1, 1), (9, 2, 2)], ⟨0, 0, 255⟩⟩ 5 =
      ((points_to_draw ⟨9, [(2, 0, 0), (5, 1, 1), (9, 2, 2)], ⟨0, 0, 255⟩⟩ 5).zip
        (points_to_draw ⟨9, [(2, 0, 0), (5, 1, 1), (9, 2, 2)], ⟨0, 0, 255⟩⟩ 5).tail).map
        (fun pq => DrawCmd.line pq.1 pq.2
          (⟨9, [(2, 0, 0), (5, 1, 1), (9, 2, 2)], ⟨0, 0, 255⟩⟩ : TrajInfo).color 2) :=
  ⟨by decide,
    (polyline_iff_two_points ⟨9, [(2, 0, 0), (5, 1, 1), (9, 2, 2)], ⟨0, 0, 255⟩⟩ 5).2.2
      (by decide) (by decide)⟩

theorem except_bind_ok {ε α β : Type} (a : α) (f : α → Except ε β) :
    (Except.ok a : Except ε α) >>= f = f a := rfl

theorem process_frames_freq_irrelevant (P : VisParams) (orig : List RawFrame)
    (mask : List (List ℕ)) (width : ℕ) (f1 f2 : ℕ) (h1 : 0 < f1) (h2 : 0 < f2) :
    ∀ idxs : List ℕ,
      Except.map Prod.fst (process_frames P orig mask width f1 idxs) =
      Except.map Prod.fst (process_frames P orig mask width f2 idxs) := by
  intro idxs
  induction idxs with
  | nil => rfl
  | cons i rest ih =>
    obtain ⟨g1, rfl⟩ : ∃ k, f1 = k + 1 := ⟨f1 - 1, by omega⟩
    obtain ⟨g2, rfl⟩ : ∃ k, f2 = k + 1 := ⟨f2 - 1, by omega⟩
    simp only [process_frames]
    cases hro : getFrame? orig i with
    | error e => rfl
    | ok raw =>
      simp only [except_bind_ok]
      cases hrm : getFrame? mask i with
      | error e => rfl
      | ok m =>
        simp only [except_bind_ok]
        rw [if_neg (Nat.succ_ne_zero g1), if_neg (Nat.succ_ne_zero g2)]
        cases hcf : process_frame P width raw m i with
        | error e => rfl
        | ok cf =>
          simp only [except_bind_ok]
          cases hr1 : process_frames P orig mask width (g1 + 1) rest with
          | error e1 =>
            cases hr2 : process_frames P orig mask width (g2 + 1) rest with
            | error e2 =>
              rw [hr1, hr2] at ih
              simp only [Except.map] at ih
              cases ih
              rfl
            | ok p2 =>
              rw [hr1, hr2] at ih
              simp [Except.map] at ih
          | ok p1 =>
            cases hr2 : process_frames P orig mask width (g2 + 1) rest with
            | error e2 =>
              rw [hr1, hr2] at ih
              simp [Except.map] at ih
            | ok p2 =>
              rw [hr1, hr2] at ih
              simp only [Except.map, Except.ok.injEq] at ih
              show (Except.ok (cf :: p1.1) : Except String _) = Except.ok (cf :: p2.1)
              rw [ih]

/-- C8: for a fixed input (parameters, frames, masks, frame range), any
two positive `output_frequency` values yield identical processed-frame
outputs from `process_batch` (and identical error behavior): the
progress cadence affects only the log component. -/
theorem output_frequency_independence (P : VisParams) (orig : List RawFrame)
    (mask : List (List ℕ)) (width start_frame end_frame : ℕ) (f1 f2 : ℕ)
    (h1 : 0 < f1) (h2 : 0 < f2) :
    Except.map Prod.fst (process_batch P orig mask width f1 start_frame end_frame) =
    Except.map Prod.fst (process_batch P orig mask width f2 start_frame end_frame) :=
  process_frames_freq_irrelevant P orig mask width f1 f2 h1 h2
    (List.range' start_frame (end_frame - start_frame))

/-- Witness for C8: a 1-frame batch, frequencies 1 and 2. -/
theorem output_frequency_independence_witness :
    0 < 1 ∧ 0 < 2 ∧
    Except.map Prod.fst (process_batch
        ⟨[], 3 / 10, none, [], [], none, none, ⟨255, 255, 255⟩⟩ [.gray [5]] [[0]] 1 1 0 1) =
    Except.map Prod.fst (process_batch
        ⟨[], 3 / 10, none, [], [], none, none, ⟨255, 255, 255⟩⟩ [.gray [5]] [[0]] 1 2 0 1) :=
  ⟨by decide, by decide,
    output_frequency_independence ⟨[], 3 / 10, none, [], [], none, none, ⟨255, 255, 255⟩⟩
      [.gray [5]] [[0]] 1 0 1 1 2 (by decide) (by decide)⟩

/-- C9: the `FrameVisualizer` constructor tests unset parameters by
Python falsiness, so `alpha = 0.0` silently becomes the default `0.3`
and `output_frequency = 0` silently becomes `100`; consequently no
constructor argument can produce a blend factor of exactly zero. -/
theorem falsy_defaults :
    init_alpha (some 0) = 3 / 10 ∧
    init_output_frequency (some 0) = 100 ∧
    ∀ a : Option ℚ, init_alpha a ≠ 0 := by
  refine ⟨by norm_num [init_alpha], by norm_num [init_output_frequency], ?_⟩
  intro a
  cases a with
  | none => norm_num [init_alpha]
  | some x =>
    simp only [init_alpha]
    by_cases hx : x = 0
    · rw [if_pos hx]; norm_num
    · rw [if_neg hx]; exact hx

/-- Witness for C9: a nonzero configured alpha stays nonzero. -/
theorem falsy_defaults_witness : init_alpha (some 7) ≠ 0 :=
  falsy_defaults.2.2 (some 7)

/-- C10: `_draw_labels` reads `row['track_id']` unconditionally, before
drawing the circle and before the `track_id_color` test, so a row
without a `track_id` value present at the current frame makes
`draw_cell_tracking` raise even when `track_id_color` is `None` — while
the same row with a `track_id` value yields exactly the marker. -/
theorem track_id_read_unconditional :
    draw_cell_tracking [] [⟨[⟨0, 4, 7, none⟩], ⟨0, 255, 0⟩⟩] none 0 =
      Except.error ("KeyError: track_id") ∧
    draw_cell_tracking [] [⟨[⟨0, 4, 7, some 3⟩], ⟨0, 255, 0⟩⟩] none 0 =
      Except.ok [DrawCmd.circle (4, 7) 3 ⟨0, 255, 0⟩] :=
  ⟨rfl, rfl⟩
